import Mathlib

/-!
# LawBot retrieval-augmented answer pipeline: a verification development

Shallow embedding of the core pipeline of the LawBot legal-assistant
platform (category detection, answer parsing, professional matching,
chunking, retrieval, index loading) together with the two frontend
components that carry logic (ProtectedRoute, AuthProvider).

Text is modelled as `List Char`; machine floats (ratings, similarity
scores) are modelled as `ℚ`.
-/

/-- Convert a string literal to the `List Char` representation used
throughout this development. -/
def str (s : String) : List Char := s.data

/-- ASCII lower-casing of a character string, as performed by Python's
`str.lower()` / JavaScript's `toLowerCase()` on ASCII input. -/
def toLowerL (l : List Char) : List Char := l.map Char.toLower

/-- Whitespace test used by trimming. -/
def isWS (c : Char) : Bool := c = ' ' || c = '\t' || c = '\n' || c = '\r'

/-- Trim leading and trailing whitespace, as Python's `str.strip()`. -/
def trimL (l : List Char) : List Char :=
  ((l.dropWhile isWS).reverse.dropWhile isWS).reverse

/-- `isSubL pat l` is true when `pat` occurs as a contiguous substring of
`l`: there is a position `i` at which `pat` is a prefix of `l.drop i`. -/
def isSubL (pat l : List Char) : Bool :=
  (List.range (l.length + 1)).any fun i => pat.isPrefixOf (l.drop i)

/-- A category keyword table: category labels in configuration order,
each with its list of trigger keywords (`CATEGORY_KEYWORDS`). -/
abbrev CategoryTable := List (List Char × List (List Char))

/-- `categoryHits e input` is true when at least one trigger keyword of
the table entry `e` occurs in the lower-cased input. -/
def categoryHits (e : List Char × List (List Char)) (input : List Char) : Bool :=
  e.2.any fun kw => isSubL kw (toLowerL input)

/-- Modelled from the spec: the Category Detector (`app/chat` keyword
classifier, not present under `src/`). Lower-cases the input, scans the
configured categories in configuration order and returns the first
category one of whose trigger keywords occurs in the input; `none` when
no category matches. -/
def detectCategory (table : CategoryTable) (input : List Char) : Option (List Char) :=
  (table.find? fun e => categoryHits e input).map Prod.fst

/-- The example table used by the spec's category-priority test. -/
def exampleTable : CategoryTable :=
  [(str "divorce", [str "divorce", str "alimony"]),
   (str "cyber", [str "hacking"])]

/-- `isPrefixCI pat text` holds when the (already lower-case) pattern is
a prefix of the lower-cased text. -/
def isPrefixCI (pat text : List Char) : Bool := pat.isPrefixOf (toLowerL text)

/-- `occursCI pat l` is true when the (lower-case) pattern occurs
case-insensitively anywhere in `l`. -/
def occursCI (pat l : List Char) : Bool :=
  (List.range (l.length + 1)).any fun i => isPrefixCI pat (l.drop i)

/-- Split a text at the LAST case-insensitive occurrence of `pat`:
`some (pre, post)` with the text equal to `pre ++ occurrence ++ post`, or
`none` when `pat` does not occur. -/
def lastSplit (pat : List Char) : List Char → Option (List Char × List Char)
  | [] => if isPrefixCI pat [] then some ([], []) else none
  | c :: cs =>
    match lastSplit pat cs with
    | some (pre, post) => some (c :: pre, post)
    | none =>
      if isPrefixCI pat (c :: cs) then some ([], (c :: cs).drop pat.length)
      else none

/-- The category marker the language model is instructed to emit
("Detected Legal Category:"), stored lower-case for case-insensitive
matching. -/
def markerL : List Char := str "detected legal category:"

/-- Modelled from the spec: the known practice-area labels recognised
when validating the marker token (the backend category table is not
present under `src/`). -/
def knownCategories : List (List Char) :=
  [str "family", str "criminal", str "cyber", str "property",
   str "civil", str "corporate", str "divorce"]

/-- Normalisation of the token following the marker: lower-case, then
trim surrounding whitespace. -/
def normalizeToken (l : List Char) : List Char := trimL (toLowerL l)

/-- Result of parsing a raw model reply. -/
structure ParsedAnswer where
  body : List Char
  category : Option (List Char)
deriving DecidableEq, Repr

/-- Modelled from the spec: the Answer Parser (`app/chat/rag.py` response
parsing, not present under `src/`). Finds the last case-insensitive
occurrence of the category marker; the trimmed text before it is the
answer body and the normalised token after it becomes the category when
it names a known category, otherwise the keyword-detection fallback is
used; with no marker, the body is the whole reply and the category is
the fallback. Total: never raises. -/
def parseAnswer (fallback : Option (List Char)) (raw : List Char) : ParsedAnswer :=
  match lastSplit markerL raw with
  | none => ⟨raw, fallback⟩
  | some (pre, post) =>
    let tok := normalizeToken post
    if knownCategories.contains tok then ⟨trimL pre, some tok⟩
    else ⟨trimL pre, fallback⟩

/-- A professional candidate as supplied by the external store. -/
structure Professional where
  ident : List Char
  practice_area : List Char
  experience_years : Nat
  average_rating : ℚ
  review_count : Nat
deriving DecidableEq, Repr

/-- Effective rating used for ranking: candidates with zero reviews rank
by rating 0, never by a null value. -/
def effRating (p : Professional) : ℚ :=
  if p.review_count = 0 then 0 else p.average_rating

/-- Ranking relation of the Professional Matcher: `profRank p q` holds
when `p` may come no later than `q` — strictly higher effective rating,
or equal rating and no lower experience. -/
def profRank (p q : Professional) : Prop :=
  effRating q < effRating p ∨
    (effRating p = effRating q ∧ q.experience_years ≤ p.experience_years)

instance : DecidableRel profRank := fun p q => by
  unfold profRank
  infer_instance

instance : IsTotal Professional profRank := by
  constructor
  intro p q
  rcases lt_trichotomy (effRating p) (effRating q) with h | h | h
  · exact Or.inr (Or.inl h)
  · rcases Nat.le_total q.experience_years p.experience_years with he | he
    · exact Or.inl (Or.inr ⟨h, he⟩)
    · exact Or.inr (Or.inr ⟨h.symm, he⟩)
  · exact Or.inl (Or.inl h)

instance : IsTrans Professional profRank := by
  constructor
  intro p q r hpq hqr
  rcases hpq with h1 | ⟨h1, e1⟩
  · rcases hqr with h2 | ⟨h2, e2⟩
    · exact Or.inl (h2.trans h1)
    · exact Or.inl (h2 ▸ h1)
  · rcases hqr with h2 | ⟨h2, e2⟩
    · exact Or.inl (h1 ▸ h2)
    · exact Or.inr ⟨h1.trans h2, e2.trans e1⟩

/-- Modelled from the spec: the category filter of the Professional
Matcher (`get_suggested_lawyers`, not present under `src/`): keep
candidates whose practice area contains the category case-insensitively;
fall back to the whole candidate set when the category is null or the
filter matches nothing. -/
def filterByCategory (cat : Option (List Char)) (cands : List Professional) :
    List Professional :=
  match cat with
  | none => cands
  | some c =>
    let f := cands.filter fun p => isSubL (toLowerL c) (toLowerL p.practice_area)
    if f.isEmpty then cands else f

/-- Modelled from the spec: the Professional Matcher ranking (not
present under `src/`): filter by category, stable-sort by effective
rating descending then experience descending, truncate to 5. -/
def matchProfessionals (cat : Option (List Char)) (cands : List Professional) :
    List Professional :=
  (List.insertionSort profRank (filterByCategory cat cands)).take 5

/-- The candidate set of the spec's ranking example. -/
def exCands : List Professional :=
  [⟨str "a", str "family", 3, mkRat 9 2, 12⟩,
   ⟨str "b", str "family", 10, 0, 0⟩,
   ⟨str "c", str "family", 8, mkRat 9 2, 7⟩]

/-- A chunk produced by the Chunker, with stable identity, provenance
and start offset. -/
structure Chunk where
  chunk_id : String × Nat
  document_ref : String
  text : List Char
  start_offset : Nat
deriving DecidableEq, Repr

/-- Deterministic chunk identity: a function of the document identity
and the start offset only. -/
def mkChunkId (doc : String) (off : Nat) : String × Nat := (doc, off)

/-- The chunk cut from `t` at offset `start` with window `W`. -/
def mkChunk (doc : String) (t : List Char) (W start : Nat) : Chunk :=
  ⟨mkChunkId doc start, doc, (t.drop start).take W, start⟩

/-- Modelled from the spec: the sliding-window Chunker of
`build_index.py` (not present under `src/`). Emits the window at
`start`, then advances by `W - O` while a further full step remains;
the final chunk takes whatever text is left (no padding). -/
def chunkFrom (doc : String) (t : List Char) (W O : Nat) (h : O < W) (start : Nat) :
    List Chunk :=
  if _hlt : start + W < t.length then
    mkChunk doc t W start :: chunkFrom doc t W O h (start + (W - O))
  else [mkChunk doc t W start]
termination_by t.length - start
decreasing_by omega

/-- Chunking of a whole document text. -/
def chunkText (doc : String) (t : List Char) (W O : Nat) (h : O < W) : List Chunk :=
  chunkFrom doc t W O h 0

/-- Relation between consecutive chunks: the window advances by `W - O`
and the trailing `O` characters of a chunk are the leading `O`
characters of the next. -/
def chunkRel (W O : Nat) (c c' : Chunk) : Prop :=
  c'.start_offset = c.start_offset + (W - O) ∧
  c.text.drop (W - O) = c'.text.take O ∧
  (c.text.drop (W - O)).length = O

/-- An index entry: chunk text plus its embedding vector. -/
structure IndexEntry where
  text : List Char
  vec : List ℚ
deriving DecidableEq, Repr

/-- Squared Euclidean distance, the metric of the FAISS flat L2 index. -/
def sqDist (u v : List ℚ) : ℚ :=
  (List.zipWith (fun a b => (a - b) * (a - b)) u v).sum

/-- A search candidate: entry, internal index position (insertion order,
the similarity tie-break) and its distance to the query vector. -/
structure Scored where
  entry : IndexEntry
  pos : Nat
  dist : ℚ
deriving DecidableEq, Repr

/-- Modelled from the spec: index search (`RAGChatbot._search`, not
present under `src/`). Scores every entry against the query vector and
stable-sorts by distance ascending, so distance ties stay in internal
position order. -/
def simRank (qv : List ℚ) (idx : List IndexEntry) : List Scored :=
  List.insertionSort (fun a b => a.dist ≤ b.dist)
    (idx.enum.map fun pe => ⟨pe.2, pe.1, sqDist qv pe.2.vec⟩)

/-- The `top_n` nearest neighbours. -/
def simTop (qv : List ℚ) (idx : List IndexEntry) (n : Nat) : List Scored :=
  (simRank qv idx).take n

/-- Lexical-overlap score: fraction of query keywords present in the
chunk text, case-insensitively (0 when there are no keywords). -/
def overlapScore (qkw : List (List Char)) (text : List Char) : ℚ :=
  if qkw.length = 0 then 0
  else (qkw.countP fun kw => isSubL kw (toLowerL text)) / (qkw.length : ℚ)

/-- Combined re-rank score: weighted sum 0.7 · normalised similarity
(taken as `1 / (1 + distance)`) + 0.3 · lexical overlap. -/
def combinedScore (qkw : List (List Char)) (s : Scored) : ℚ :=
  (7 / 10) * (1 / (1 + s.dist)) + (3 / 10) * overlapScore qkw s.entry.text

/-- Modelled from the spec: re-ranking by combined score, descending;
the stable sort breaks combined-score ties by the original similarity
rank. -/
def rerank (qkw : List (List Char)) (pool : List Scored) : List Scored :=
  List.insertionSort (fun a b => combinedScore qkw b ≤ combinedScore qkw a) pool

/-- Modelled from the spec: the Retriever (not present under `src/`):
over-fetch `top_n = 3k` nearest neighbours, re-rank by combined score,
return the top `k`. -/
def retrieve (idx : List IndexEntry) (qv : List ℚ) (qkw : List (List Char))
    (k : Nat) : List Scored :=
  (rerank qkw (simTop qv idx (3 * k))).take k

/-- A four-entry index witnessing non-monotonicity of `retrieve` in `k`:
three keyword-free entries at distance 1 and one keyword-bearing entry
at distance 4. -/
def cexIdx : List IndexEntry :=
  [⟨str "aaa", [1]⟩, ⟨str "bbb", [1]⟩, ⟨str "ccc", [1]⟩, ⟨str "fir info", [2]⟩]

/-- The query keywords of the non-monotonicity example. -/
def cexKw : List (List Char) := [str "fir"]

/-- Retrieval against a possibly unavailable index: an unavailable index
yields an empty result, not an error. -/
def retrieveOpt (idxOpt : Option (List IndexEntry)) (qv : List ℚ)
    (qkw : List (List Char)) (k : Nat) : List Scored :=
  match idxOpt with
  | none => []
  | some idx => retrieve idx qv qkw k

/-- A chat query: raw text, its embedding vector and extracted keywords
(the embedding backend is external and pluggable). -/
structure ChatQuery where
  text : List Char
  vec : List ℚ
  keywords : List (List Char)

/-- The chat response payload: answer text, detected category and the
cited source excerpts. -/
structure ChatResponse where
  answer : List Char
  detected_category : Option (List Char)
  citations : List (List Char)
deriving DecidableEq, Repr

/-- The non-empty degraded answer returned when no retrieval context is
available. -/
def fallbackAnswer : List Char :=
  str "I could not find relevant legal context for this question. Please consult a qualified lawyer."

/-- Modelled from the spec: the Prompt Composer: fixed system
instruction, retrieved chunks, the question, and the marker
instruction. -/
def composePrompt (results : List Scored) (question : List Char) : List Char :=
  str "You are LawBot, a legal assistant for Indian law. Context: "
    ++ (results.map fun s => s.entry.text).flatten
    ++ str " Question: " ++ question
    ++ str " End your answer with the line Detected Legal Category: <category>."

/-- Modelled from the spec: the query-time chat pipeline (not present
under `src/`): retrieve, then either serve the degraded no-context
response (non-empty generic answer, no category, no citations) or
compose the prompt, call the external model and parse its reply. -/
def chatPipeline (idxOpt : Option (List IndexEntry)) (table : CategoryTable)
    (model : List Char → List Char) (q : ChatQuery) (k : Nat) : ChatResponse :=
  match retrieveOpt idxOpt q.vec q.keywords k with
  | [] => ⟨fallbackAnswer, none, []⟩
  | r :: rs =>
    let raw := model (composePrompt (r :: rs) q.text)
    let parsed := parseAnswer (detectCategory table q.text) raw
    ⟨parsed.body, parsed.category, (r :: rs).map fun s => s.entry.text⟩

/-- A metadata record of the persisted index: chunk provenance, text and
offset. -/
structure MetaRec where
  document_ref : String
  text : List Char
  start_offset : Nat
deriving DecidableEq, Repr

/-- Index-load failures. -/
inductive IndexLoadError where
  | indexCorruption
deriving DecidableEq, Repr

/-- A loaded index: vectors paired positionally with their metadata. -/
structure LoadedIndex where
  entries : List (List ℚ × MetaRec)
deriving DecidableEq, Repr

/-- Modelled from the spec: loading the persisted index artifact (not
present under `src/`): the vector count and the metadata entry count
must agree, otherwise the load fails with `IndexCorruptionError`; no
partial or truncated state is ever produced. -/
def loadIndex (vectors : List (List ℚ)) (metadata : List MetaRec) :
    Except IndexLoadError LoadedIndex :=
  if vectors.length = metadata.length then
    Except.ok ⟨List.zip vectors metadata⟩
  else Except.error IndexLoadError.indexCorruption

/-- What the ProtectedRoute component renders
(`frontend/src/components/ProtectedRoute.jsx`). -/
inductive RouteRender where
  | navigateToLogin (fromPath : String)
  | accessDenied (role : String)
  | contentChildren
  | contentOutlet
deriving DecidableEq, Repr

/-- The ProtectedRoute component: redirect to `/login` (carrying the
current location) when unauthenticated; an access-denied panel when a
required role is given and the user's role differs; otherwise the
children when present, else the nested Outlet. -/
def protectedRoute (isAuthenticated : Bool) (userRole : Option String)
    (location : String) (requiredRole : Option String) (hasChildren : Bool) :
    RouteRender :=
  if !isAuthenticated then RouteRender.navigateToLogin location
  else
    match requiredRole with
    | some r =>
      if userRole ≠ some r then RouteRender.accessDenied r
      else if hasChildren then RouteRender.contentChildren
      else RouteRender.contentOutlet
    | none =>
      if hasChildren then RouteRender.contentChildren
      else RouteRender.contentOutlet

/-- Whether a render outcome is the protected content (children or
Outlet). -/
def isContent : RouteRender → Bool
  | RouteRender.contentChildren => true
  | RouteRender.contentOutlet => true
  | _ => false

/-- An account as stored by the auth context. -/
structure Account where
  email : String
  full_name : String
  role : String
deriving DecidableEq, Repr

/-- The raw `lawbot_user` localStorage entry: either a serialised
account or an unparsable string. -/
inductive StoredValue where
  | ofAccount (a : Account)
  | malformed
deriving DecidableEq, Repr

/-- `JSON.parse` of a stored entry: succeeds exactly on serialised
accounts. -/
def parseStored : StoredValue → Option Account
  | StoredValue.ofAccount a => some a
  | StoredValue.malformed => none

/-- The AuthProvider state: the React `user` state plus the
`lawbot_user` localStorage entry
(`frontend/src/context/AuthContext.jsx`). -/
structure AuthState where
  user : Option Account
  storage : Option StoredValue
deriving DecidableEq, Repr

/-- The startup effect: parse the stored entry into the user, removing
an unparsable entry and leaving the user null. -/
def initAuth (stored : Option StoredValue) : AuthState :=
  match stored with
  | none => ⟨none, none⟩
  | some v =>
    match parseStored v with
    | some a => ⟨some a, some v⟩
    | none => ⟨none, none⟩

/-- `handleAuthSuccess`: set the account as user and store it. -/
def handleAuthSuccess (_s : AuthState) (account : Account) : AuthState :=
  ⟨some account, some (StoredValue.ofAccount account)⟩

/-- `login` on API success delegates to `handleAuthSuccess`. -/
def loginAuth (s : AuthState) (account : Account) : AuthState :=
  handleAuthSuccess s account

/-- `signup` on API success delegates to `handleAuthSuccess`. -/
def signupAuth (s : AuthState) (account : Account) : AuthState :=
  handleAuthSuccess s account

/-- `logout`: clear the user and remove the stored entry. -/
def logoutAuth (_s : AuthState) : AuthState := ⟨none, none⟩

/-- The context value exposed by the provider. -/
structure AuthContextValue where
  user : Option Account
  isAuthenticated : Bool
deriving DecidableEq, Repr

/-- The provider's memoised context value: `isAuthenticated` is
`Boolean(user)`. -/
def contextValue (s : AuthState) : AuthContextValue :=
  ⟨s.user, s.user.isSome⟩

theorem find?_append_of_none {α : Type} (p : α → Bool) (l1 l2 : List α)
    (h : ∀ e ∈ l1, p e = false) : (l1 ++ l2).find? p = l2.find? p := by
  induction l1 with
  | nil => simp
  | cons a l ih =>
    have ha : p a = false := h a (by simp)
    simp only [List.cons_append, List.find?, ha]
    exact ih fun e he => h e (by simp [he])

/-- C1: the Category Detector lower-cases its input and scans categories
in configuration order: if every category before `entry` has no keyword
hit and `entry` has one, the detector returns `entry`'s label; if no
category has a hit it returns `none`; and on the spec's example table the
input "divorce due to hacking evidence" yields "divorce", as does the
overlapping input "Her ALIMONY was stolen by hacking" despite also
containing a cyber keyword. -/
theorem detectCategory_first_match_and_fallback :
    (∀ (pre post : CategoryTable) (entry : List Char × List (List Char))
       (input : List Char),
       (∀ e ∈ pre, categoryHits e input = false) →
       categoryHits entry input = true →
       detectCategory (pre ++ entry :: post) input = some entry.1) ∧
    (∀ (table : CategoryTable) (input : List Char),
       (∀ e ∈ table, categoryHits e input = false) →
       detectCategory table input = none) ∧
    detectCategory exampleTable (str "divorce due to hacking evidence")
      = some (str "divorce") ∧
    detectCategory exampleTable (str "Her ALIMONY was stolen by hacking")
      = some (str "divorce") := by
  refine ⟨?_, ?_, by decide, by decide⟩
  · intro pre post entry input hpre hentry
    unfold detectCategory
    rw [find?_append_of_none _ pre _ hpre]
    simp [List.find?, hentry]
  · intro table input h
    unfold detectCategory
    have : table.find? (fun e => categoryHits e input) = none := by
      rw [List.find?_eq_none]
      intro e he
      simp [h e he]
    simp [this]

/-- Witness for C1: instantiates the first-match clause on the example
table with the first category hitting and nothing before it. -/
theorem detectCategory_first_match_and_fallback_witness :
    detectCategory ([] ++ (str "divorce", [str "divorce", str "alimony"]) ::
        [(str "cyber", [str "hacking"])]) (str "divorce due to hacking evidence")
      = some (str "divorce") :=
  detectCategory_first_match_and_fallback.1 [] _ _ _
    (by intro e he; simp at he) (by decide)

theorem toLowerL_append (l1 l2 : List Char) :
    toLowerL (l1 ++ l2) = toLowerL l1 ++ toLowerL l2 := by
  simp [toLowerL]

theorem toLowerL_length (l : List Char) : (toLowerL l).length = l.length := by
  simp [toLowerL]

theorem occursCI_cons_false {pat : List Char} {c : Char} {cs : List Char}
    (h : occursCI pat (c :: cs) = false) : occursCI pat cs = false := by
  rw [occursCI] at h ⊢
  simp only [List.any_eq_false, List.mem_range, List.length_cons] at h ⊢
  intro i hi
  have := h (i + 1) (by omega)
  simpa [isPrefixCI, toLowerL] using this

theorem occursCI_head_false {pat : List Char} {c : Char} {cs : List Char}
    (h : occursCI pat (c :: cs) = false) : isPrefixCI pat (c :: cs) = false := by
  rw [occursCI] at h
  simp only [List.any_eq_false, List.mem_range] at h
  simpa using h 0 (by omega)

theorem lastSplit_eq_none {pat l : List Char} (h : occursCI pat l = false) :
    lastSplit pat l = none := by
  induction l with
  | nil =>
    have h0 : isPrefixCI pat [] = false := by
      rw [occursCI] at h
      simp only [List.any_eq_false, List.mem_range] at h
      simpa using h 0 (by omega)
    simp [lastSplit, h0]
  | cons c cs ih =>
    have htail := ih (occursCI_cons_false h)
    have hhead := occursCI_head_false h
    simp [lastSplit, htail, hhead]

theorem lastSplit_cons (pat : List Char) (c : Char) (cs : List Char) :
    lastSplit pat (c :: cs) =
      match lastSplit pat cs with
      | some (pre, post) => some (c :: pre, post)
      | none =>
        if isPrefixCI pat (c :: cs) then some ([], (c :: cs).drop pat.length)
        else none := rfl

theorem lastSplit_last_occurrence {pat : List Char} (hne : pat ≠ [])
    (pre mc post : List Char) (hmc : toLowerL mc = pat)
    (hafter : occursCI pat (mc.drop 1 ++ post) = false) :
    lastSplit pat (pre ++ mc ++ post) = some (pre, post) := by
  induction pre with
  | nil =>
    have hmcne : mc ≠ [] := by
      intro h
      apply hne
      rw [← hmc, h]
      rfl
    obtain ⟨m0, mrest, rfl⟩ := List.exists_cons_of_ne_nil hmcne
    have hdrop : (m0 :: mrest).drop 1 = mrest := by simp
    rw [hdrop] at hafter
    have htail : lastSplit pat (mrest ++ post) = none := lastSplit_eq_none hafter
    have hpref : isPrefixCI pat (m0 :: (mrest ++ post)) = true := by
      have : m0 :: (mrest ++ post) = (m0 :: mrest) ++ post := by simp
      rw [this, isPrefixCI, toLowerL_append, hmc, List.isPrefixOf_iff_prefix]
      exact List.prefix_append _ _
    have hlen : pat.length = (m0 :: mrest).length := by
      rw [← hmc, toLowerL_length]
    show lastSplit pat ((m0 :: mrest) ++ post) = some ([], post)
    rw [List.cons_append, lastSplit_cons, htail]
    show (if isPrefixCI pat (m0 :: (mrest ++ post))
          then some (([] : List Char), (m0 :: (mrest ++ post)).drop pat.length)
          else none) = some ([], post)
    rw [if_pos hpref]
    have hdrop2 : (m0 :: (mrest ++ post)).drop pat.length = post := by
      have : m0 :: (mrest ++ post) = (m0 :: mrest) ++ post := by simp
      rw [this, hlen, List.drop_append_of_le_length (by simp), List.drop_length]
      simp
    rw [hdrop2]
  | cons p pre' ih =>
    show lastSplit pat (p :: (pre' ++ mc ++ post)) = some (p :: pre', post)
    rw [lastSplit_cons, ih]

/-- C2: the Answer Parser: (i) when the marker does not occur
case-insensitively in the raw reply, the answer body is the entire reply
and the category is the keyword-detection fallback; (ii) when the reply
decomposes as `pre ++ mc ++ post` with `mc` lower-casing to the marker
and no further marker occurrence after it, the body is `pre` trimmed and
the category is the normalised token after the marker when it names a
known category, the fallback otherwise; the parser is total, so no
marker absence, duplication or malformed token can raise an error. -/
theorem parseAnswer_marker_handling :
    (∀ (fallback : Option (List Char)) (raw : List Char),
       occursCI markerL raw = false →
       parseAnswer fallback raw = ⟨raw, fallback⟩) ∧
    (∀ (fallback : Option (List Char)) (pre mc post : List Char),
       toLowerL mc = markerL →
       occursCI markerL (mc.drop 1 ++ post) = false →
       parseAnswer fallback (pre ++ mc ++ post) =
         if knownCategories.contains (normalizeToken post)
         then ⟨trimL pre, some (normalizeToken post)⟩
         else ⟨trimL pre, fallback⟩) := by
  constructor
  · intro fallback raw h
    rw [parseAnswer, lastSplit_eq_none h]
  · intro fallback pre mc post hmc hafter
    have hne : markerL ≠ [] := by decide
    rw [parseAnswer, lastSplit_last_occurrence hne pre mc post hmc hafter]

/-- Witness for C2: a reply carrying "Detected Legal Category: Criminal"
parses to the trimmed body and category "criminal"; a reply with no
marker keeps the full text and the fallback category. -/
theorem parseAnswer_marker_handling_witness :
    parseAnswer none (str "You should file an FIR. " ++ str "Detected legal category:"
        ++ str " Criminal")
      = ⟨str "You should file an FIR.", some (str "criminal")⟩ ∧
    parseAnswer (some (str "cyber")) (str "plain reply")
      = ⟨str "plain reply", some (str "cyber")⟩ := by
  constructor
  · have h := parseAnswer_marker_handling.2 none (str "You should file an FIR. ")
      (str "Detected legal category:") (str " Criminal") (by decide) (by decide)
    rw [h]
    decide
  · exact parseAnswer_marker_handling.1 (some (str "cyber")) (str "plain reply") (by decide)

/-- C3: the Professional Matcher falls back to the unfiltered candidate
set when the category is null or the filter yields zero matches; when
the filter does match, every returned candidate's practice area contains
the category case-insensitively; its
output is ranked by effective rating descending (zero-review candidates
counted as rating 0) with ties broken by experience descending, is
truncated to at most 5, contains only input candidates, is deterministic,
and ranks the spec's example candidates as the 4.5-rating/8-years one,
then the 4.5-rating/3-years one, then the zero-rating one last. -/
theorem matchProfessionals_ranking :
    (∀ cands, filterByCategory none cands = cands) ∧
    (∀ c cands,
       cands.filter (fun p => isSubL (toLowerL c) (toLowerL p.practice_area)) = [] →
       filterByCategory (some c) cands = cands) ∧
    (∀ c cands p,
       cands.filter (fun p => isSubL (toLowerL c) (toLowerL p.practice_area)) ≠ [] →
       p ∈ matchProfessionals (some c) cands →
       isSubL (toLowerL c) (toLowerL p.practice_area) = true) ∧
    (∀ cat cands, List.Pairwise profRank (matchProfessionals cat cands)) ∧
    (∀ cat cands, (matchProfessionals cat cands).length ≤ 5) ∧
    (∀ cat cands p, p ∈ matchProfessionals cat cands → p ∈ cands) ∧
    (∀ cat cands, matchProfessionals cat cands = matchProfessionals cat cands) ∧
    matchProfessionals none exCands =
      [⟨str "c", str "family", 8, mkRat 9 2, 7⟩,
       ⟨str "a", str "family", 3, mkRat 9 2, 12⟩,
       ⟨str "b", str "family", 10, 0, 0⟩] := by
  refine ⟨fun cands => rfl, ?_, ?_, ?_, ?_, ?_, fun cat cands => rfl, by decide⟩
  · intro c cands h
    simp [filterByCategory, h]
  · intro c cands p hne hp
    have h1 : p ∈ List.insertionSort profRank (filterByCategory (some c) cands) :=
      (List.take_sublist 5 _).mem hp
    have h2 : p ∈ filterByCategory (some c) cands :=
      (List.mem_insertionSort profRank).1 h1
    unfold filterByCategory at h2
    simp only at h2
    have hf : (cands.filter fun p =>
        isSubL (toLowerL c) (toLowerL p.practice_area)).isEmpty = false := by
      rcases List.exists_cons_of_ne_nil hne with ⟨x, xs, hx⟩
      rw [hx]
      rfl
    rw [if_neg (by rw [hf]; exact Bool.false_ne_true)] at h2
    exact (List.mem_filter.1 h2).2
  · intro cat cands
    have hs := List.sorted_insertionSort profRank (filterByCategory cat cands)
    exact hs.sublist (List.take_sublist 5 _)
  · intro cat cands
    unfold matchProfessionals
    simp [List.length_take]
  · intro cat cands p hp
    have h1 : p ∈ List.insertionSort profRank (filterByCategory cat cands) :=
      (List.take_sublist 5 _).mem hp
    have h2 : p ∈ filterByCategory cat cands := (List.mem_insertionSort profRank).1 h1
    unfold filterByCategory at h2
    cases cat with
    | none => exact h2
    | some c =>
      simp only at h2
      by_cases hf : (cands.filter fun p => isSubL (toLowerL c) (toLowerL p.practice_area)).isEmpty
      · rw [if_pos hf] at h2
        exact h2
      · rw [if_neg hf] at h2
        exact List.mem_of_mem_filter h2

/-- Witness for C3: instantiates the zero-matches fallback clause on a
candidate whose practice area does not contain the category. -/
theorem matchProfessionals_ranking_witness :
    filterByCategory (some (str "cyber")) exCands = exCands :=
  matchProfessionals_ranking.2.1 (str "cyber") exCands (by decide)

theorem chunkFrom_head? (doc : String) (t : List Char) (W O : Nat) (h : O < W)
    (start : Nat) :
    (chunkFrom doc t W O h start).head? = some (mkChunk doc t W start) := by
  rw [chunkFrom]
  split <;> rfl

theorem chunkFrom_ne_nil (doc : String) (t : List Char) (W O : Nat) (h : O < W)
    (start : Nat) : chunkFrom doc t W O h start ≠ [] := by
  rw [chunkFrom]
  split <;> simp

theorem chunkFrom_chain' (doc : String) (t : List Char) (W O : Nat) (h : O < W)
    (start : Nat) : List.Chain' (chunkRel W O) (chunkFrom doc t W O h start) := by
  induction start using chunkFrom.induct doc t W O h with
  | case1 start hlt ih =>
    rw [chunkFrom, dif_pos hlt]
    refine ih.cons' ?_
    intro y hy
    rw [chunkFrom_head?] at hy
    simp only [Option.mem_def, Option.some_inj] at hy
    subst hy
    refine ⟨rfl, ?_, ?_⟩
    · show ((t.drop start).take W).drop (W - O) =
        ((t.drop (start + (W - O))).take W).take O
      rw [List.drop_take, List.drop_drop, List.take_take]
      have h1 : W - (W - O) = O := by omega
      have h2 : min O W = O := by omega
      rw [h1, h2]
    · show (((t.drop start).take W).drop (W - O)).length = O
      simp only [List.length_drop, List.length_take, List.length_drop]
      omega
  | case2 start hlt =>
    rw [chunkFrom, dif_neg hlt]
    exact List.chain'_singleton _

theorem chunkFrom_dropLast_length (doc : String) (t : List Char) (W O : Nat)
    (h : O < W) (start : Nat) :
    ∀ c ∈ (chunkFrom doc t W O h start).dropLast, c.text.length = W := by
  induction start using chunkFrom.induct doc t W O h with
  | case1 start hlt ih =>
    rw [chunkFrom, dif_pos hlt,
      List.dropLast_cons_of_ne_nil (chunkFrom_ne_nil doc t W O h _)]
    intro c hc
    rcases List.mem_cons.1 hc with rfl | hc
    · show ((t.drop start).take W).length = W
      simp only [List.length_take, List.length_drop]
      omega
    · exact ih c hc
  | case2 start hlt =>
    rw [chunkFrom, dif_neg hlt]
    intro c hc
    simp at hc

theorem chunkFrom_getLast? (doc : String) (t : List Char) (W O : Nat) (h : O < W)
    (start : Nat) :
    ∃ s, (chunkFrom doc t W O h start).getLast? = some (mkChunk doc t W s) ∧
      t.length ≤ s + W ∧ start ≤ s := by
  induction start using chunkFrom.induct doc t W O h with
  | case1 start hlt ih =>
    obtain ⟨s, hs, hlen, hge⟩ := ih
    refine ⟨s, ?_, hlen, by omega⟩
    rw [chunkFrom, dif_pos hlt]
    obtain ⟨c0, cs, hcs⟩ :=
      List.exists_cons_of_ne_nil (chunkFrom_ne_nil doc t W O h (start + (W - O)))
    rw [hcs]
    rw [hcs] at hs
    rw [List.getLast?_cons_cons]
    exact hs
  | case2 start hlt =>
    exact ⟨start, by rw [chunkFrom, dif_neg hlt]; rfl, by omega, le_refl start⟩

theorem chunkFrom_ids (doc : String) (t : List Char) (W O : Nat) (h : O < W)
    (start : Nat) :
    ∀ c ∈ chunkFrom doc t W O h start, c.chunk_id = mkChunkId doc c.start_offset := by
  induction start using chunkFrom.induct doc t W O h with
  | case1 start hlt ih =>
    rw [chunkFrom, dif_pos hlt]
    intro c hc
    rcases List.mem_cons.1 hc with rfl | hc
    · rfl
    · exact ih c hc
  | case2 start hlt =>
    rw [chunkFrom, dif_neg hlt]
    intro c hc
    rcases List.mem_cons.1 hc with rfl | hc
    · rfl
    · simp at hc

theorem chunkFrom_map_id (doc : String) (t : List Char) (W O : Nat) (h : O < W)
    (start : Nat) :
    (chunkFrom doc t W O h start).map Chunk.chunk_id =
      (chunkFrom doc t W O h start).map (fun c => (doc, c.start_offset)) := by
  apply List.map_congr_left
  intro c hc
  exact chunkFrom_ids doc t W O h start c hc

theorem chunkFrom_offsets_lt (doc : String) (t : List Char) (W O : Nat) (h : O < W)
    (start : Nat) :
    List.Pairwise (fun c c' : Chunk => c.start_offset < c'.start_offset)
      (chunkFrom doc t W O h start) := by
  have hc := chunkFrom_chain' doc t W O h start
  have hlt : List.Chain' (fun c c' : Chunk => c.start_offset < c'.start_offset)
      (chunkFrom doc t W O h start) := by
    refine List.Chain'.imp ?_ hc
    intro a b hr
    have := hr.1
    omega
  have hm : List.Chain' (· < ·)
      ((chunkFrom doc t W O h start).map Chunk.start_offset) :=
    (List.chain'_map _).2 hlt
  have hp := List.chain'_iff_pairwise.1 hm
  exact (List.pairwise_map).1 hp

theorem chunkFrom_ids_nodup (doc : String) (t : List Char) (W O : Nat) (h : O < W)
    (start : Nat) :
    ((chunkFrom doc t W O h start).map Chunk.chunk_id).Nodup := by
  rw [chunkFrom_map_id]
  rw [List.Nodup]
  refine (chunkFrom_offsets_lt doc t W O h start).map _ ?_
  intro a b hab hcontra
  have := congrArg Prod.snd hcontra
  simp only at this
  omega

/-- C4: chunking invariants: with `0 ≤ O < W`, every chunk except the
last has text length exactly `W`; consecutive chunks advance the window
by `W - O` and share exactly `O` characters (the trailing `O` characters
of one chunk are the leading `O` characters of the next); the final
chunk carries the remaining text unpadded, of length at most `W`; and a
text no longer than `W` yields exactly one chunk whose text is the whole
input. -/
theorem chunkText_window_invariants (doc : String) (t : List Char) (W O : Nat)
    (h : O < W) :
    (∀ c ∈ (chunkText doc t W O h).dropLast, c.text.length = W) ∧
    List.Chain' (chunkRel W O) (chunkText doc t W O h) ∧
    (∃ s c, (chunkText doc t W O h).getLast? = some c ∧ c.start_offset = s ∧
       c.text = t.drop s ∧ c.text.length ≤ W) ∧
    (t.length ≤ W → chunkText doc t W O h = [⟨mkChunkId doc 0, doc, t, 0⟩]) := by
  refine ⟨chunkFrom_dropLast_length doc t W O h 0, chunkFrom_chain' doc t W O h 0,
    ?_, ?_⟩
  · obtain ⟨s, hs, hlen, _⟩ := chunkFrom_getLast? doc t W O h 0
    refine ⟨s, mkChunk doc t W s, hs, rfl, ?_, ?_⟩
    · show (t.drop s).take W = t.drop s
      apply List.take_of_length_le
      simp only [List.length_drop]
      omega
    · show ((t.drop s).take W).length ≤ W
      simp [List.length_take]
  · intro hshort
    rw [chunkText, chunkFrom, dif_neg (by omega)]
    have : (t.drop 0).take W = t := by
      rw [List.drop_zero]
      exact List.take_of_length_le hshort
    rw [mkChunk, this]

/-- Witness for C4: evaluates the invariants on the eight-character text
"abcdefgh" with window 5 and overlap 2, whose chunks are "abcde" and
"defgh", and the single-chunk case on the short text "ab". -/
theorem chunkText_window_invariants_witness :
    List.Chain' (chunkRel 5 2) (chunkText "doc" (str "abcdefgh") 5 2 (by omega)) ∧
    chunkText "doc" (str "ab") 5 2 (by omega) =
      [⟨mkChunkId "doc" 0, "doc", str "ab", 0⟩] :=
  ⟨(chunkText_window_invariants "doc" (str "abcdefgh") 5 2 (by omega)).2.1,
   (chunkText_window_invariants "doc" (str "ab") 5 2 (by omega)).2.2.2 (by decide)⟩

/-- C5: chunking is idempotent and chunk identity is deterministic:
re-chunking the same text with the same `W, O` yields the identical
chunk sequence; every chunk's `chunk_id` is exactly the pair of the
document identity and the chunk's start offset; and the chunk_ids of one
document's chunks are pairwise distinct. -/
theorem chunkText_idempotent (doc : String) (t : List Char) (W O : Nat)
    (h h' : O < W) :
    chunkText doc t W O h = chunkText doc t W O h' ∧
    (∀ c ∈ chunkText doc t W O h, c.chunk_id = mkChunkId doc c.start_offset) ∧
    ((chunkText doc t W O h).map Chunk.chunk_id).Nodup :=
  ⟨rfl, chunkFrom_ids doc t W O h 0, chunkFrom_ids_nodup doc t W O h 0⟩

/-- Witness for C5: instantiates idempotence and id determinism on the
concrete text "abcdefgh" with window 5 and overlap 2. -/
theorem chunkText_idempotent_witness :
    chunkText "doc" (str "abcdefgh") 5 2 (by omega)
      = chunkText "doc" (str "abcdefgh") 5 2 (by omega) ∧
    ((chunkText "doc" (str "abcdefgh") 5 2 (by omega)).map Chunk.chunk_id).Nodup :=
  ⟨(chunkText_idempotent "doc" (str "abcdefgh") 5 2 (by omega) (by omega)).1,
   (chunkText_idempotent "doc" (str "abcdefgh") 5 2 (by omega) (by omega)).2.2⟩

theorem cex_sub0 : isSubL (str "fir") (toLowerL (str "aaa")) = false := by decide

theorem cex_sub1 : isSubL (str "fir") (toLowerL (str "bbb")) = false := by decide

theorem cex_sub2 : isSubL (str "fir") (toLowerL (str "ccc")) = false := by decide

theorem cex_sub3 : isSubL (str "fir") (toLowerL (str "fir info")) = true := by decide

theorem retrieve_cex_k1 : retrieve cexIdx [0] cexKw 1 = [⟨⟨str "aaa", [1]⟩, 0, 1⟩] := by
  norm_num [retrieve, rerank, simTop, simRank, cexIdx, cexKw, sqDist,
    combinedScore, overlapScore, List.insertionSort, List.orderedInsert,
    List.enum, List.enumFrom, cex_sub0, cex_sub1, cex_sub2, cex_sub3,
    List.countP_cons, List.countP_nil]

theorem retrieve_cex_k2 : retrieve cexIdx [0] cexKw 2 =
    [⟨⟨str "fir info", [2]⟩, 3, 4⟩, ⟨⟨str "aaa", [1]⟩, 0, 1⟩] := by
  norm_num [retrieve, rerank, simTop, simRank, cexIdx, cexKw, sqDist,
    combinedScore, overlapScore, List.insertionSort, List.orderedInsert,
    List.enum, List.enumFrom, cex_sub0, cex_sub1, cex_sub2, cex_sub3,
    List.countP_cons, List.countP_nil]

/-- Counterexample to C6 as stated: with the spec's over-fetch pool
`top_n = 3k`, the top-1 result for the example index and query is not a
prefix of the top-2 result, because the keyword-heavy entry at
similarity rank 4 enters the pool only at `k = 2` and re-ranks to the
top. -/
theorem retrieve_not_monotone_cex :
    ¬ (retrieve cexIdx [0] cexKw 1 <+: retrieve cexIdx [0] cexKw 2) := by
  rw [retrieve_cex_k1, retrieve_cex_k2]
  intro h
  obtain ⟨t, ht⟩ := h
  have := congrArg (fun l => l.head?) ht
  simp at this

/-- C6 (amended): retrieval is monotone in `k` whenever the re-ranked
candidate pool does not depend on `k` — in particular whenever the
over-fetch `3·k1` already covers the whole index, so both queries
re-rank the same pool: then the ordered top-`k1` result is exactly a
prefix of the ordered top-`k2` result. -/
theorem retrieve_monotone_in_k (idx : List IndexEntry) (qv : List ℚ)
    (qkw : List (List Char)) (k1 k2 : Nat) (hk : k1 ≤ k2)
    (hcov : idx.length ≤ 3 * k1) :
    retrieve idx qv qkw k1 <+: retrieve idx qv qkw k2 := by
  have hlen : (simRank qv idx).length = idx.length := by
    simp [simRank, List.length_insertionSort]
  have hp1 : simTop qv idx (3 * k1) = simRank qv idx :=
    List.take_of_length_le (by omega)
  have hp2 : simTop qv idx (3 * k2) = simRank qv idx :=
    List.take_of_length_le (by omega)
  rw [retrieve, retrieve, hp1, hp2]
  have heq : (rerank qkw (simRank qv idx)).take k1 =
      ((rerank qkw (simRank qv idx)).take k2).take k1 := by
    rw [List.take_take, min_eq_left hk]
  rw [heq]
  exact List.take_prefix k1 _

/-- Witness for C6 (amended): on the four-entry example index the
over-fetch at `k1 = 2` covers the whole index, and the top-2 result is a
prefix of the top-3 result. -/
theorem retrieve_monotone_in_k_witness :
    retrieve cexIdx [0] cexKw 2 <+: retrieve cexIdx [0] cexKw 3 :=
  retrieve_monotone_in_k cexIdx [0] cexKw 2 3 (by omega) (by norm_num [cexIdx])

/-- C7: when the vector index is unavailable or empty, retrieval returns
the empty result rather than raising, and the chat pipeline still
returns a non-empty answer with null category and empty citations. -/
theorem retrieve_empty_index_degrades (qv : List ℚ) (qkw : List (List Char))
    (k : Nat) (table : CategoryTable) (model : List Char → List Char)
    (q : ChatQuery) :
    retrieveOpt none qv qkw k = [] ∧
    retrieveOpt (some []) qv qkw k = [] ∧
    ((chatPipeline none table model q k).answer ≠ [] ∧
     (chatPipeline none table model q k).detected_category = none ∧
     (chatPipeline none table model q k).citations = []) ∧
    ((chatPipeline (some []) table model q k).answer ≠ [] ∧
     (chatPipeline (some []) table model q k).detected_category = none ∧
     (chatPipeline (some []) table model q k).citations = []) := by
  have hempty : retrieve [] qv qkw k = [] := by
    simp [retrieve, rerank, simTop, simRank]
  have hnone : retrieveOpt (none : Option (List IndexEntry)) qv qkw k = [] := rfl
  have hsome : retrieveOpt (some []) qv qkw k = [] := hempty
  have hfb : fallbackAnswer ≠ [] := by decide
  constructor
  · exact hnone
  constructor
  · exact hsome
  constructor
  · rw [chatPipeline]
    have : retrieveOpt (none : Option (List IndexEntry)) q.vec q.keywords k = [] := rfl
    rw [this]
    exact ⟨hfb, rfl, rfl⟩
  · rw [chatPipeline]
    have : retrieveOpt (some []) q.vec q.keywords k = [] := by
      simp [retrieveOpt, retrieve, rerank, simTop, simRank]
    rw [this]
    exact ⟨hfb, rfl, rfl⟩

/-- C8: loading succeeds exactly when the metadata entry count equals
the vector count; on any mismatch the load is the fatal
`IndexCorruptionError`; and a successful load carries every vector and
every metadata record — the entry count equals both input counts, so no
silently truncated state is ever produced. -/
theorem loadIndex_validates_counts (vectors : List (List ℚ))
    (metadata : List MetaRec) :
    ((∃ s, loadIndex vectors metadata = Except.ok s) ↔
      vectors.length = metadata.length) ∧
    (vectors.length ≠ metadata.length →
      loadIndex vectors metadata = Except.error IndexLoadError.indexCorruption) ∧
    (∀ s, loadIndex vectors metadata = Except.ok s →
      s.entries.length = vectors.length ∧ s.entries.length = metadata.length) := by
  refine ⟨⟨?_, ?_⟩, ?_, ?_⟩
  · rintro ⟨s, hs⟩
    by_contra hne
    rw [loadIndex, if_neg hne] at hs
    exact Except.noConfusion hs
  · intro heq
    exact ⟨⟨List.zip vectors metadata⟩, by rw [loadIndex, if_pos heq]⟩
  · intro hne
    rw [loadIndex, if_neg hne]
  · intro s hs
    by_cases heq : vectors.length = metadata.length
    · rw [loadIndex, if_pos heq] at hs
      have := Except.ok.inj hs
      subst this
      constructor
      · simp [List.length_zip, heq]
      · simp [List.length_zip, heq]
    · rw [loadIndex, if_neg heq] at hs
      exact Except.noConfusion hs

/-- Witness for C8: a mismatched one-vector, zero-record artifact loads
to the corruption error, and a matched one-vector, one-record artifact
loads with as many entries as vectors and as metadata records. -/
theorem loadIndex_validates_counts_witness :
    loadIndex [[1]] [] = Except.error IndexLoadError.indexCorruption ∧
    ((⟨[([1], ⟨"d", str "t", 0⟩)]⟩ : LoadedIndex).entries.length = 1 ∧
     (⟨[([1], ⟨"d", str "t", 0⟩)]⟩ : LoadedIndex).entries.length = 1) :=
  ⟨(loadIndex_validates_counts [[1]] []).2.1 (by simp),
   (loadIndex_validates_counts [[1]] [⟨"d", str "t", 0⟩]).2.2
     ⟨[([1], ⟨"d", str "t", 0⟩)]⟩ rfl⟩

/-- C9: ProtectedRoute renders the protected content exactly when the
auth state is authenticated and either no requiredRole is given or the
user's role equals it; every unauthenticated state renders the `/login`
redirect carrying the current location; and an authenticated state with
a non-matching role renders the access-denied panel. -/
theorem protectedRoute_guards (isAuthenticated : Bool) (userRole : Option String)
    (location : String) (requiredRole : Option String) (hasChildren : Bool) :
    ((isContent
        (protectedRoute isAuthenticated userRole location requiredRole hasChildren)
          = true) ↔
      (isAuthenticated = true ∧
        (requiredRole = none ∨ userRole = requiredRole))) ∧
    (isAuthenticated = false →
      protectedRoute isAuthenticated userRole location requiredRole hasChildren
        = RouteRender.navigateToLogin location) ∧
    (∀ r, isAuthenticated = true → requiredRole = some r → userRole ≠ some r →
      protectedRoute isAuthenticated userRole location requiredRole hasChildren
        = RouteRender.accessDenied r) := by
  refine ⟨?_, ?_, ?_⟩
  · cases isAuthenticated with
    | false => simp [protectedRoute, isContent]
    | true =>
      cases requiredRole with
      | none => cases hasChildren <;> simp [protectedRoute, isContent]
      | some r =>
        by_cases h : userRole = some r
        · cases hasChildren <;> simp [protectedRoute, isContent, h]
        · simp [protectedRoute, isContent, h]
  · intro hfalse
    subst hfalse
    simp [protectedRoute]
  · intro r hauth hreq hne
    subst hauth
    subst hreq
    simp [protectedRoute, hne]

/-- Witness for C9: an unauthenticated visit to `/user/dashboard`
redirects to login, and an authenticated plain user hitting the
lawyer-only route is denied. -/
theorem protectedRoute_guards_witness :
    protectedRoute false none "/user/dashboard" (some "user") true
      = RouteRender.navigateToLogin "/user/dashboard" ∧
    protectedRoute true (some "user") "/lawyer/dashboard" (some "lawyer") true
      = RouteRender.accessDenied "lawyer" :=
  ⟨(protectedRoute_guards false none "/user/dashboard" (some "user") true).2.1 rfl,
   (protectedRoute_guards true (some "user") "/lawyer/dashboard" (some "lawyer")
      true).2.2 "lawyer" rfl rfl (by simp)⟩

/-- C10: every exposed context value satisfies `isAuthenticated =
Boolean(user)`; login and signup success store the account and set it as
user; logout nulls the user and removes the stored entry; an unparsable
stored entry at startup is removed and yields a null user; and a
parsable one restores the account with the entry kept. -/
theorem authProvider_consistency (s : AuthState) (account : Account)
    (v : StoredValue) (a : Account) :
    ((contextValue s).isAuthenticated = true ↔ (contextValue s).user ≠ none) ∧
    loginAuth s account
      = ⟨some account, some (StoredValue.ofAccount account)⟩ ∧
    signupAuth s account
      = ⟨some account, some (StoredValue.ofAccount account)⟩ ∧
    logoutAuth s = ⟨none, none⟩ ∧
    initAuth none = ⟨none, none⟩ ∧
    (parseStored v = none → initAuth (some v) = ⟨none, none⟩) ∧
    initAuth (some (StoredValue.ofAccount a))
      = ⟨some a, some (StoredValue.ofAccount a)⟩ := by
  refine ⟨?_, rfl, rfl, rfl, rfl, ?_, rfl⟩
  · rw [contextValue]
    cases s.user <;> simp
  · intro hv
    rw [initAuth, hv]

/-- Witness for C10: the malformed stored entry is removed at startup
and the user stays null. -/
theorem authProvider_consistency_witness :
    initAuth (some StoredValue.malformed) = ⟨none, none⟩ :=
  (authProvider_consistency ⟨none, none⟩ ⟨"e", "n", "user"⟩ StoredValue.malformed
    ⟨"e", "n", "user"⟩).2.2.2.2.2.1 rfl
